import Mathlib

/-!
# Bprime table generator: range parser and sweep engine

A shallow embedding of `src/generate_bprime_table.cpp`.

* A finite `double` is a rational (`ℚ`). The loops `forLoop`, `additiveAxis`,
  `pressureAxis` and `sweep` take the comparisons `x < x2 + 1.0e-6` and the
  updates `P *= dP`, `Bg += dBg`, `T += dT` in exact arithmetic. The loops
  `forLoopIn`, `additiveAxisIn` and `pressureAxisIn` take them in an arithmetic
  `Arith` given as a parameter, which may round and may stop the process;
  `exactArith` gives back the exact loops and `ieeeArith` is binary64 rounding
  to nearest with the overflow trap that `main` enables.
* The Mutation++ string helpers `String::tokenize`, `String::isNumeric` and the
  C library function `atof` are not part of the repository. `parseRange` takes
  them as a parameter (`StringLib`); every general statement about `parseRange`
  holds for any such library. A concrete library `mppString` is used to
  evaluate `parseRange` on literal inputs.
* A C `for` loop is `forLoop`: it is run with a bound on the number of
  evaluations of its condition and tells whether it left the loop (`done`) or is
  still running when the bound is reached (`more`).
-/

namespace Bprime

/-! ## Range parser -/

/-- The string helpers `parseRange` calls: `String::tokenize(range, tokens, ":")`,
`String::isNumeric` on one token, and `atof`. -/
structure StringLib where
  tokenize : String → List String
  isNumericTok : String → Bool
  atof : String → ℚ

/-- The overload `String::isNumeric(const std::vector<std::string>&)`: every
token of the vector is numeric. -/
def StringLib.isNumeric (L : StringLib) (tokens : List String) : Bool :=
  tokens.all L.isNumericTok

/-- The three outputs `x1`, `x2`, `dx` of the three-argument `parseRange`
(start, end, step). -/
structure Range where
  x1 : ℚ
  x2 : ℚ
  dx : ℚ
deriving DecidableEq, Repr

/-- The `if (dx == 0.0) { x2 = x1; dx = 1.0; }` tail of `parseRange`. -/
def zeroStepCollapse (r : Range) : Range :=
  if r.dx = 0 then { x1 := r.x1, x2 := r.x1, dx := 1 } else r

/-- The function `bool parseRange(const std::string&, double& x1, double& x2, double& dx)`;
`none` is `return false`, `some r` is `return true` with the three outputs. -/
def parseRange (L : StringLib) (range : String) : Option Range :=
  let tokens := L.tokenize range
  if !L.isNumeric tokens then none
  else
    match tokens with
    | [t0] =>
        let x1 := L.atof t0
        some (zeroStepCollapse { x1 := x1, x2 := x1, dx := 1 })
    | [t0, t1, t2] =>
        some (zeroStepCollapse { x1 := L.atof t0, x2 := L.atof t2, dx := L.atof t1 })
    | _ => none

/-! ### A concrete string library -/

/-- Splits a character list on `':'`; `cur` is the token being read, reversed.
Empty tokens are dropped. -/
def splitColon : List Char → List Char → List String
  | [], cur => if cur.isEmpty then [] else [String.mk cur.reverse]
  | c :: cs, cur =>
      if c = ':' then
        (if cur.isEmpty then [] else [String.mk cur.reverse]) ++ splitColon cs []
      else splitColon cs (c :: cur)

/-- Value of a decimal digit character. -/
def digitVal (c : Char) : Nat := c.toNat - '0'.toNat

/-- Value of the leading run of decimal digits, `acc` being the value read so far. -/
def leadingDigits : List Char → Nat → Nat
  | [], acc => acc
  | c :: cs, acc => if c.isDigit then leadingDigits cs (10 * acc + digitVal c) else acc

/-- Modelled from the spec: the Mutation++ helpers `String::tokenize` and
`String::isNumeric` and the C function `atof` are not in the repository; the
spec only says that the input is tokenized on `":"` and that every token must be
numeric. Here tokens are the non-empty pieces between `":"`, a token is numeric
when it is made of decimal digits only, and `atof` of such a token is the number
it writes. Only literal inputs made of digits and `":"` (and the letters of
`"a:b:c"`) are evaluated with it; the general statements hold for every
`StringLib`. -/
def mppString : StringLib where
  tokenize s := splitColon s.toList []
  isNumericTok t := t.toList.all Char.isDigit
  atof t := (leadingDigits t.toList 0 : ℚ)

/-! ## Command line -/

/-- The `Options` structure filled by `parseOptions`. -/
structure Options where
  T1 : ℚ
  T2 : ℚ
  dT : ℚ
  P1 : ℚ
  P2 : ℚ
  dP : ℚ
  Bg1 : ℚ
  Bg2 : ℚ
  dBg : ℚ
  mixture : String
  boundary_layer_comp : String
  pyrolysis_composition : String
  pyrolysis_exist : Bool
deriving DecidableEq, Repr

/-- The function `optionExists`: `std::find` over the argument vector. -/
def optionExists (argv : List String) (option : String) : Bool :=
  argv.contains option

/-- The function `getOption`: the argument after the first occurrence of
`option`, or `""` when `option` is absent or is the last argument. -/
def getOption (argv : List String) (option : String) : String :=
  match argv.dropWhile (fun a => a != option) with
  | _ :: value :: _ => value
  | _ => ""

/-- The function `parseOptions`; `none` stands for every path that ends in
`printHelpMessage`, which calls `exit(0)`. -/
def parseOptions (L : StringLib) (argv : List String) : Option Options :=
  if argv.length < 2 then none
  else if optionExists argv "-h" || optionExists argv "--help" then none
  else if !optionExists argv "-T" then none
  else
    match parseRange L (getOption argv "-T") with
    | none => none
    | some rT =>
      if !optionExists argv "-P" then none
      else
        match parseRange L (getOption argv "-P") with
        | none => none
        | some rP =>
          if !optionExists argv "-b" then none
          else
            match parseRange L (getOption argv "-b") with
            | none => none
            | some rB =>
              if !optionExists argv "-m" then none
              else if !optionExists argv "-bl" then none
              else
                some
                  { T1 := rT.x1, T2 := rT.x2, dT := rT.dx
                    P1 := rP.x1, P2 := rP.x2, dP := rP.dx
                    Bg1 := rB.x1, Bg2 := rB.x2, dBg := rB.dx
                    mixture := getOption argv "-m"
                    boundary_layer_comp := getOption argv "-bl"
                    pyrolysis_composition :=
                      if optionExists argv "-py" then getOption argv "-py" else ""
                    pyrolysis_exist := optionExists argv "-py" }

/-! ## Sweep engine -/

/-- The tolerance `1.0e-6` added to the upper bound in every loop condition. -/
def eps : ℚ := 1 / 1000000

/-- Result of running a loop with a bound on the number of evaluations of its
condition: `done s` when the loop was left in state `s`, `more s` when the bound
was reached with the loop still running, `s` being the state reached so far. -/
inductive Run (σ : Type) where
  | done : σ → Run σ
  | more : σ → Run σ
deriving DecidableEq, Repr

/-- The state carried by a run, finished or not. -/
def Run.state {σ : Type} : Run σ → σ
  | .done s => s
  | .more s => s

/-- Whether the loop was left. -/
def Run.finished {σ : Type} : Run σ → Bool
  | .done _ => true
  | .more _ => false

/-- The loop `for (double x = x0; cond x; x = next x) body`, run for at most
`fuel` evaluations of `cond`. -/
def forLoop {σ : Type} (cond : ℚ → Bool) (next : ℚ → ℚ) (body : ℚ → σ → Run σ) :
    Nat → ℚ → σ → Run σ
  | 0, _, s => .more s
  | fuel + 1, x, s =>
      if cond x then
        match body x s with
        | .done s' => forLoop cond next body fuel (next x) s'
        | .more s' => .more s'
      else .done s

/-- The loop body that only records the value of the loop variable. -/
def record (x : ℚ) (visited : List ℚ) : Run (List ℚ) := .done (visited ++ [x])

/-- The values visited by `for (double x = x1; x < x2 + 1.0e-6; x += dx)`, the
loop of the temperature and blowing-rate axes. -/
def additiveAxis (x1 x2 dx : ℚ) (fuel : Nat) : Run (List ℚ) :=
  forLoop (fun x => decide (x < x2 + eps)) (fun x => x + dx) record fuel x1 []

/-- The values visited by `for (double P = P1; P < P2 + 1.0e-6; P *= dP)`, the
loop of the pressure axis. -/
def pressureAxis (P1 P2 dP : ℚ) (fuel : Nat) : Run (List ℚ) :=
  forLoop (fun P => decide (P < P2 + eps)) (fun P => P * dP) record fuel P1 []

/-- The value of `P` after `k` updates `P *= dP` from `P1`. -/
def pressureValue (P1 dP : ℚ) (k : Nat) : ℚ := (fun P => P * dP)^[k] P1

/-- The outputs `Bc`, `hw`, `Xw` of `mix.surfaceMassBalance`. -/
structure WallState where
  Bc : ℚ
  hw : ℚ
  Xw : List ℚ
deriving DecidableEq, Repr

/-- The external evaluator `mix.surfaceMassBalance(Yke, Ykg, T, P, Bg, Bc, hw, Xw)`:
from `Yke`, `Ykg`, `T`, `P`, `Bg` to the three outputs. -/
abbrev Evaluator := List ℚ → List ℚ → ℚ → ℚ → ℚ → WallState

/-- One execution of the innermost loop body: the loop variables, the
`T`, `P`, `Bg` arguments handed to `surfaceMassBalance`, and the fields of the
data row written to `cout`. -/
structure Step where
  P : ℚ
  Bg : ℚ
  T : ℚ
  callT : ℚ
  callP : ℚ
  callBg : ℚ
  row : List ℚ
deriving DecidableEq, Repr

/-- The body of the temperature loop: the call
`mix.surfaceMassBalance(Yke, Ykg, T, P, abs(Bg), Bc, hw, Xw)` and the row
`P*1.0e-5, Bg, T, Bc, hw/1.0e6, Xw[0..ns)`. With `<cmath>` in scope (through
`Eigen/Dense`) and `using namespace std`, `abs(Bg)` is the `double` overload,
the absolute value. Rows are kept as numbers, before `setw` formatting. -/
def sweepBody (smb : Evaluator) (Yke Ykg : List ℚ) (P Bg T : ℚ) (log : List Step) :
    Run (List Step) :=
  let w := smb Yke Ykg T P |Bg|
  .done (log ++
    [{ P := P, Bg := Bg, T := T, callT := T, callP := P, callBg := |Bg|
       row := [P * (1 / 100000), Bg, T, w.Bc, w.hw / 1000000] ++ w.Xw }])

/-- The three nested loops of `main` (pressure, blowing rate, temperature), each
with its own bound. -/
def sweep (smb : Evaluator) (Yke Ykg : List ℚ) (o : Options) (fuelP fuelBg fuelT : Nat) :
    Run (List Step) :=
  forLoop (fun P => decide (P < o.P2 + eps)) (fun P => P * o.dP)
    (fun P log =>
      forLoop (fun Bg => decide (Bg < o.Bg2 + eps)) (fun Bg => Bg + o.dBg)
        (fun Bg log =>
          forLoop (fun T => decide (T < o.T2 + eps)) (fun T => T + o.dT)
            (sweepBody smb Yke Ykg P Bg) fuelT o.T1 log)
        fuelBg o.Bg1 log)
    fuelP o.P1 []

/-- The grid point `(P, Bg, T)` of a step. -/
def Step.point (s : Step) : ℚ × ℚ × ℚ := (s.P, s.Bg, s.T)

/-- The function `main` after the mixture is loaded: `none` when `parseOptions`
prints the help message and exits, otherwise the run of the sweep. `Yke` and
`Ykg` are the compositions read from the mixture (`Ykg` all zero without `-py`). -/
def main (L : StringLib) (smb : Evaluator) (Yke Ykg : List ℚ) (argv : List String)
    (fuelP fuelBg fuelT : Nat) : Option (Run (List Step)) :=
  (parseOptions L argv).map (fun o => sweep smb Yke Ykg o fuelP fuelBg fuelT)



/-! ## Double arithmetic

The loops above take `double` as exact rationals. Here the sum `x2 + 1.0e-6`
and the updates `x += dx`, `P *= dP` go through an arithmetic `Arith` that may
round and may stop the process: `main` starts with
`feenableexcept(FE_INVALID | FE_DIVBYZERO | FE_OVERFLOW)`, so an overflowing
operation raises `SIGFPE` and every value that is computed is finite, hence a
rational. -/

/-- The power `2 ^ e` for an integer exponent. -/
def twoPow (e : Int) : ℚ :=
  if 0 ≤ e then (2 : ℚ) ^ e.toNat else 1 / (2 : ℚ) ^ (-e).toNat

/-- Halving `n` until it is below 2, at most `fuel` times, counting the halvings. -/
def log2Fuel : Nat → Nat → Nat
  | 0, _ => 0
  | fuel + 1, n => if n < 2 then 0 else log2Fuel fuel (n / 2) + 1

/-- The integer part of the base-2 logarithm of `n` (`0` for `n = 0`). -/
def floorLog2 (n : Nat) : Nat := log2Fuel n n

/-- For `a > 0`, the exponent `e` with `2 ^ e ≤ a < 2 ^ (e + 1)`. -/
def binade (a : ℚ) : Int :=
  let e0 : Int := (floorLog2 a.num.natAbs : Int) - (floorLog2 a.den : Int)
  if twoPow e0 ≤ a then e0 else e0 - 1

/-- The integer nearest to `q ≥ 0`, a tie going to the even one. -/
def roundNearestEven (q : ℚ) : Nat :=
  let f := q.num.natAbs / q.den
  let r := q - f
  if r < 1 / 2 then f else if 1 / 2 < r then f + 1 else if f % 2 = 0 then f else f + 1

/-- IEEE 754 binary64 rounding to nearest, ties to even, of the exact result
`x` of an operation: precision 53 bits, least exponent `-1022` (below it the
spacing stays `2 ^ -1074`), and `none` when the rounded magnitude reaches
`2 ^ 1024`, the overflow that raises `SIGFPE` under `feenableexcept`. -/
def roundDouble (x : ℚ) : Option ℚ :=
  if x = 0 then some 0
  else
    let a := |x|
    let e := max (binade a) (-1022)
    let ulp := twoPow (e - 52)
    let y := (roundNearestEven (a / ulp) : ℚ) * ulp
    if twoPow 1024 ≤ y then none else some (if x < 0 then -y else y)

/-- The arithmetic the loops use: the sum and the product of two values, `none`
when the operation stops the process, and the value of the constant `1.0e-6`. -/
structure Arith where
  add : ℚ → ℚ → Option ℚ
  mul : ℚ → ℚ → Option ℚ
  eps : ℚ

/-- Exact arithmetic. -/
def exactArith : Arith :=
  { add := fun a b => some (a + b), mul := fun a b => some (a * b), eps := eps }

/-- The `double` arithmetic of the program: every operation is the exact result
rounded by `roundDouble`, and `1.0e-6` is the `double` nearest to `1/1000000`. -/
def ieeeArith : Arith :=
  { add := fun a b => roundDouble (a + b), mul := fun a b => roundDouble (a * b)
    eps := 4722366482869645 / 4722366482869645213696 }

/-- Result of running a loop with a bound on the number of evaluations of its
condition, in an arithmetic that can stop the process: `done`, `more` as in
`Run`, and `trapped s` when an operation stopped the process in state `s`. -/
inductive Exec (σ : Type) where
  | done : σ → Exec σ
  | more : σ → Exec σ
  | trapped : σ → Exec σ
deriving DecidableEq, Repr

/-- The state carried by an execution. -/
def Exec.state {σ : Type} : Exec σ → σ
  | .done s => s
  | .more s => s
  | .trapped s => s

/-- A `Run` seen as an execution that never traps. -/
def Run.toExec {σ : Type} : Run σ → Exec σ
  | .done s => .done s
  | .more s => .more s

/-- The state of a run changed by `f`. -/
def Run.map {σ : Type} (f : σ → σ) : Run σ → Run σ
  | .done s => .done (f s)
  | .more s => .more (f s)

/-- The loop `for (double x = x0; cond x; x = next x) body` when the condition
and the update are computed by operations that can stop the process. -/
def forLoopIn {σ : Type} (cond : ℚ → Option Bool) (next : ℚ → Option ℚ)
    (body : ℚ → σ → Exec σ) : Nat → ℚ → σ → Exec σ
  | 0, _, s => .more s
  | fuel + 1, x, s =>
      match cond x with
      | none => .trapped s
      | some false => .done s
      | some true =>
          match body x s with
          | .done s' =>
              match next x with
              | none => .trapped s'
              | some x' => forLoopIn cond next body fuel x' s'
          | .more s' => .more s'
          | .trapped s' => .trapped s'

/-- The loop body that only records the value of the loop variable. -/
def recordIn (x : ℚ) (visited : List ℚ) : Exec (List ℚ) := .done (visited ++ [x])

/-- The loop condition `x < x2 + 1.0e-6` in the arithmetic `A`. -/
def axisTest (A : Arith) (x2 x : ℚ) : Option Bool :=
  (A.add x2 A.eps).map (fun bound => decide (x < bound))

/-- The values visited by `for (double x = x1; x < x2 + 1.0e-6; x += dx)` in the
arithmetic `A`. -/
def additiveAxisIn (A : Arith) (x1 x2 dx : ℚ) (fuel : Nat) : Exec (List ℚ) :=
  forLoopIn (axisTest A x2) (fun x => A.add x dx) recordIn fuel x1 []

/-- The values visited by `for (double P = P1; P < P2 + 1.0e-6; P *= dP)` in the
arithmetic `A`. -/
def pressureAxisIn (A : Arith) (P1 P2 dP : ℚ) (fuel : Nat) : Exec (List ℚ) :=
  forLoopIn (axisTest A P2) (fun P => A.mul P dP) recordIn fuel P1 []

/-- The least positive `double`, `2 ^ -1074` (about `4.9e-324`). -/
def minSubnormal : ℚ := twoPow (-1074)

/-- The `double` nearest to `1.2`. -/
def double1_2 : ℚ := 5404319552844595 / 4503599627370496

/-! ## Predicates and inputs used in the statements -/

/-- The command line of the scenario: `-T 300:100:500 -P 101325 -b 0`, mixture
`carbonPhenol`, boundary-layer composition `BLedge`, no `-py`. -/
def scenarioArgv : List String :=
  ["bprime", "-T", "300:100:500", "-P", "101325", "-b", "0", "-m", "carbonPhenol", "-bl", "BLedge"]

/-- The options `parseOptions` reads from `scenarioArgv`. -/
def scenarioOptions : Options :=
  { T1 := 300, T2 := 500, dT := 100, P1 := 101325, P2 := 101325, dP := 1
    Bg1 := 0, Bg2 := 0, dBg := 1
    mixture := "carbonPhenol", boundary_layer_comp := "BLedge", pyrolysis_composition := ""
    pyrolysis_exist := false }

/-! ## Range parser: proofs -/

theorem zeroStepCollapse_of_ne {r : Range} (h : r.dx ≠ 0) : zeroStepCollapse r = r := by
  simp [zeroStepCollapse, h]

theorem zeroStepCollapse_of_eq {r : Range} (h : r.dx = 0) :
    zeroStepCollapse r = { x1 := r.x1, x2 := r.x1, dx := 1 } := by
  simp [zeroStepCollapse, h]

theorem zeroStepCollapse_dx_ne_zero (r : Range) : (zeroStepCollapse r).dx ≠ 0 := by
  unfold zeroStepCollapse
  split
  · simp
  · assumption

theorem parseRange_one (L : StringLib) (range v : String)
    (htok : L.tokenize range = [v]) (hnum : L.isNumericTok v = true) :
    parseRange L range =
      some (zeroStepCollapse { x1 := L.atof v, x2 := L.atof v, dx := 1 }) := by
  simp [parseRange, htok, StringLib.isNumeric, hnum]

theorem parseRange_three (L : StringLib) (range t0 t1 t2 : String)
    (htok : L.tokenize range = [t0, t1, t2])
    (hnum : L.isNumericTok t0 = true ∧ L.isNumericTok t1 = true ∧ L.isNumericTok t2 = true) :
    parseRange L range =
      some (zeroStepCollapse { x1 := L.atof t0, x2 := L.atof t2, dx := L.atof t1 }) := by
  simp [parseRange, htok, StringLib.isNumeric, hnum.1, hnum.2.1, hnum.2.2]

/-- What a successful `parseRange` tells about its input: the tokens are all
numeric and there are one or three of them, and the result is the collapsed
triple read from them. -/
theorem parseRange_eq_some (L : StringLib) (range : String) (r : Range)
    (h : parseRange L range = some r) :
    (∃ v, L.tokenize range = [v] ∧ L.isNumericTok v = true ∧
        r = zeroStepCollapse { x1 := L.atof v, x2 := L.atof v, dx := 1 }) ∨
    (∃ t0 t1 t2, L.tokenize range = [t0, t1, t2] ∧
        (L.isNumericTok t0 = true ∧ L.isNumericTok t1 = true ∧ L.isNumericTok t2 = true) ∧
        r = zeroStepCollapse { x1 := L.atof t0, x2 := L.atof t2, dx := L.atof t1 }) := by
  unfold parseRange at h
  simp only [] at h
  split at h
  · exact absurd h (by simp)
  · rename_i hnum
    simp only [Bool.not_eq_true, Bool.not_eq_false_eq_eq_true, Bool.not_eq_eq_eq_not,
      Bool.not_true, Bool.not_false] at hnum
    split at h
    · rename_i t0 htok
      left
      refine ⟨t0, htok, ?_, ?_⟩
      · rw [htok] at hnum
        simpa [StringLib.isNumeric] using hnum
      · exact (Option.some.inj h).symm
    · rename_i t0 t1 t2 htok
      right
      refine ⟨t0, t1, t2, htok, ?_, ?_⟩
      · rw [htok] at hnum
        simpa [StringLib.isNumeric, and_assoc] using hnum
      · exact (Option.some.inj h).symm
    · exact absurd h (by simp)

/-- C1: when the range string splits into exactly three numeric tokens
`t0:t1:t2` and the value of the middle token is not zero, the three-argument
`parseRange` succeeds with start `atof t0`, step `atof t1` (the middle token)
and end `atof t2`. -/
theorem parseRange_three_tokens (L : StringLib) (range t0 t1 t2 : String)
    (htok : L.tokenize range = [t0, t1, t2])
    (hnum : L.isNumericTok t0 = true ∧ L.isNumericTok t1 = true ∧ L.isNumericTok t2 = true)
    (hstep : L.atof t1 ≠ 0) :
    parseRange L range = some { x1 := L.atof t0, x2 := L.atof t2, dx := L.atof t1 } := by
  rw [parseRange_three L range t0 t1 t2 htok hnum, zeroStepCollapse_of_ne]
  exact hstep

/-- Witness of C1 on `"300:100:5000"`: start 300, step 100, end 5000. -/
theorem parseRange_three_tokens_witness :
    mppString.tokenize "300:100:5000" = ["300", "100", "5000"] ∧
    mppString.atof "100" ≠ 0 ∧
    parseRange mppString "300:100:5000" = some { x1 := 300, x2 := 5000, dx := 100 } :=
  ⟨by decide, by decide,
    (parseRange_three_tokens mppString "300:100:5000" "300" "100" "5000"
      (by decide) (by decide) (by decide)).trans (by decide)⟩

/-- C2: the three-argument `parseRange` succeeds exactly when every token of the
split input is numeric and there are exactly one or exactly three tokens; the
inputs `"a:b:c"` (three tokens, none numeric) and `"1:2"` (two tokens) are
rejected. -/
theorem parseRange_succeeds_iff :
    (∀ (L : StringLib) (range : String),
      (parseRange L range).isSome = true ↔
        ((∀ t ∈ L.tokenize range, L.isNumericTok t = true) ∧
          ((L.tokenize range).length = 1 ∨ (L.tokenize range).length = 3))) ∧
    (mppString.tokenize "a:b:c" = ["a", "b", "c"] ∧ parseRange mppString "a:b:c" = none) ∧
    (mppString.tokenize "1:2" = ["1", "2"] ∧ parseRange mppString "1:2" = none) := by
  refine ⟨?_, ⟨by decide, by decide⟩, ⟨by decide, by decide⟩⟩
  intro L range
  constructor
  · intro h
    obtain ⟨r, hr⟩ := Option.isSome_iff_exists.mp h
    rcases parseRange_eq_some L range r hr with ⟨v, htok, hnum, -⟩ | ⟨t0, t1, t2, htok, hnum, -⟩
    · rw [htok]
      exact ⟨by simpa using hnum, Or.inl rfl⟩
    · rw [htok]
      exact ⟨by simpa using hnum, Or.inr rfl⟩
  · rintro ⟨hnum, hlen | hlen⟩
    · obtain ⟨v, htok⟩ := List.length_eq_one.mp hlen
      rw [parseRange_one L range v htok (hnum v (by simp [htok]))]
      rfl
    · obtain ⟨t0, t1, t2, htok⟩ := List.length_eq_three.mp hlen
      rw [parseRange_three L range t0 t1 t2 htok
        ⟨hnum t0 (by simp [htok]), hnum t1 (by simp [htok]), hnum t2 (by simp [htok])⟩]
      rfl

/-- C5: when the input is a single numeric token `v`, the three-argument
`parseRange` succeeds with start and end both `atof v` and step `1`. -/
theorem parseRange_single_token (L : StringLib) (range v : String)
    (htok : L.tokenize range = [v]) (hnum : L.isNumericTok v = true) :
    parseRange L range = some { x1 := L.atof v, x2 := L.atof v, dx := 1 } := by
  rw [parseRange_one L range v htok hnum, zeroStepCollapse_of_ne]
  simp

/-- Witness of C5 on `"300"`: start 300, step 1, end 300. -/
theorem parseRange_single_token_witness :
    mppString.tokenize "300" = ["300"] ∧ mppString.isNumericTok "300" = true ∧
    parseRange mppString "300" = some { x1 := 300, x2 := 300, dx := 1 } :=
  ⟨by decide, by decide,
    (parseRange_single_token mppString "300" "300" (by decide) (by decide)).trans (by decide)⟩

/-- C6: when the input is three numeric tokens `t0:t1:t2` and the step token
`t1` has value `0`, the three-argument `parseRange` succeeds with start
`atof t0`, end equal to the start and step `1`, whatever `t2` is; and no
successful `parseRange` returns a step equal to `0`. -/
theorem parseRange_zero_step (L : StringLib) (range t0 t1 t2 : String)
    (htok : L.tokenize range = [t0, t1, t2])
    (hnum : L.isNumericTok t0 = true ∧ L.isNumericTok t1 = true ∧ L.isNumericTok t2 = true)
    (hstep : L.atof t1 = 0) :
    parseRange L range = some { x1 := L.atof t0, x2 := L.atof t0, dx := 1 } ∧
    ∀ (other : String) (r : Range), parseRange L other = some r → r.dx ≠ 0 := by
  constructor
  · rw [parseRange_three L range t0 t1 t2 htok hnum, zeroStepCollapse_of_eq]
    exact hstep
  · intro other r hr
    rcases parseRange_eq_some L other r hr with ⟨v, -, -, rfl⟩ | ⟨u0, u1, u2, -, -, rfl⟩
    · exact zeroStepCollapse_dx_ne_zero _
    · exact zeroStepCollapse_dx_ne_zero _

/-- Witness of C6 on `"1:0:2"`: start 1, step 1, end 1. -/
theorem parseRange_zero_step_witness :
    mppString.tokenize "1:0:2" = ["1", "0", "2"] ∧ mppString.atof "0" = 0 ∧
    parseRange mppString "1:0:2" = some { x1 := 1, x2 := 1, dx := 1 } ∧
    ∀ (other : String) (r : Range), parseRange mppString other = some r → r.dx ≠ 0 :=
  have h := parseRange_zero_step mppString "1:0:2" "1" "0" "2" (by decide) (by decide) (by decide)
  ⟨by decide, by decide, h.1.trans (by decide), h.2⟩

/-! ## Loops: general facts -/

theorem forLoop_exit {σ : Type} (cond : ℚ → Bool) (next : ℚ → ℚ) (body : ℚ → σ → Run σ)
    (fuel : Nat) (x : ℚ) (s : σ) (h : cond x = false) :
    forLoop cond next body (fuel + 1) x s = .done s := by
  simp [forLoop, h]

theorem forLoop_record_step (cond : ℚ → Bool) (next : ℚ → ℚ) (fuel : Nat) (x : ℚ)
    (s : List ℚ) (h : cond x = true) :
    forLoop cond next record (fuel + 1) x s = forLoop cond next record fuel (next x) (s ++ [x]) := by
  simp [forLoop, h, record]

theorem range_succ_map_iterate (next : ℚ → ℚ) (x : ℚ) (n : Nat) :
    (List.range (n + 1)).map (fun k => next^[k] x) =
      x :: (List.range n).map (fun k => next^[k] (next x)) := by
  rw [List.range_succ_eq_map]
  simp [List.map_map, Function.comp_def]

/-- A recording loop whose condition holds at the first `n` values of the loop
variable is still running after `n` evaluations, having visited exactly those. -/
theorem forLoop_record_more (cond : ℚ → Bool) (next : ℚ → ℚ) :
    ∀ (n : Nat) (x : ℚ) (s : List ℚ), (∀ k, k < n → cond (next^[k] x) = true) →
      forLoop cond next record n x s = .more (s ++ (List.range n).map (fun k => next^[k] x))
  | 0, x, s, _ => by simp [forLoop]
  | n + 1, x, s, h => by
      have h0 : cond x = true := h 0 (Nat.succ_pos n)
      rw [forLoop_record_step cond next n x s h0,
        forLoop_record_more cond next n (next x) (s ++ [x])
          (fun k hk => by simpa using h (k + 1) (Nat.succ_lt_succ hk)),
        range_succ_map_iterate]
      simp

/-- A recording loop whose condition holds at the first `n` values of the loop
variable and fails at the next one is left after visiting exactly those `n`
values, whenever more than `n` evaluations are allowed. -/
theorem forLoop_record_done (cond : ℚ → Bool) (next : ℚ → ℚ) :
    ∀ (n : Nat) (x : ℚ) (s : List ℚ) (fuel : Nat), n < fuel →
      (∀ k, k < n → cond (next^[k] x) = true) → cond (next^[n] x) = false →
      forLoop cond next record fuel x s = .done (s ++ (List.range n).map (fun k => next^[k] x))
  | 0, x, s, fuel, hf, _, hn => by
      obtain ⟨f, rfl⟩ := Nat.exists_eq_succ_of_ne_zero (Nat.pos_iff_ne_zero.mp hf)
      rw [forLoop_exit cond next record f x s (by simpa using hn)]
      simp
  | n + 1, x, s, fuel, hf, h, hn => by
      obtain ⟨f, rfl⟩ := Nat.exists_eq_succ_of_ne_zero (Nat.pos_iff_ne_zero.mp (Nat.zero_lt_of_lt hf))
      have h0 : cond x = true := h 0 (Nat.succ_pos n)
      rw [forLoop_record_step cond next f x s h0,
        forLoop_record_done cond next n (next x) (s ++ [x]) f (Nat.lt_of_succ_lt_succ hf)
          (fun k hk => by simpa using h (k + 1) (Nat.succ_lt_succ hk))
          (by simpa using hn),
        range_succ_map_iterate]
      simp

/-- A recording loop only appends to what was visited before. -/
theorem forLoop_record_state (cond : ℚ → Bool) (next : ℚ → ℚ) :
    ∀ (n : Nat) (x : ℚ) (s : List ℚ), ∃ vs, (forLoop cond next record n x s).state = s ++ vs
  | 0, x, s => ⟨[], by simp [forLoop, Run.state]⟩
  | n + 1, x, s => by
      by_cases h : cond x = true
      · obtain ⟨vs, hvs⟩ := forLoop_record_state cond next n (next x) (s ++ [x])
        exact ⟨x :: vs, by rw [forLoop_record_step cond next n x s h, hvs]; simp⟩
      · exact ⟨[], by
          rw [forLoop_exit cond next record n x s (by simpa using h)]; simp [Run.state]⟩

/-- When the condition holds at the initial value, the body runs and the first
value visited is the initial value. -/
theorem forLoop_record_head (cond : ℚ → Bool) (next : ℚ → ℚ) (fuel : Nat) (x : ℚ)
    (h : cond x = true) :
    (forLoop cond next record (fuel + 1) x []).state.head? = some x := by
  obtain ⟨vs, hvs⟩ := forLoop_record_state cond next fuel (next x) ([] ++ [x])
  rw [forLoop_record_step cond next fuel x [] h, hvs]
  simp

/-- A loop whose update leaves the loop variable unchanged at a value where the
condition holds is never left, whatever its body does. -/
theorem forLoop_stuck {σ : Type} (cond : ℚ → Bool) (next : ℚ → ℚ) (body : ℚ → σ → Run σ)
    (x : ℚ) (hc : cond x = true) (hn : next x = x) :
    ∀ (fuel : Nat) (s : σ), (forLoop cond next body fuel x s).finished = false
  | 0, s => by simp [forLoop, Run.finished]
  | fuel + 1, s => by
      cases hb : body x s with
      | done s' =>
          have := forLoop_stuck cond next body x hc hn fuel s'
          simpa [forLoop, hc, hb, hn] using this
      | more s' => simp [forLoop, hc, hb, Run.finished]

theorem iterate_add (x dx : ℚ) (k : Nat) : (fun y : ℚ => y + dx)^[k] x = x + k * dx := by
  induction k generalizing x with
  | zero => simp
  | succ k ih =>
      rw [Function.iterate_succ_apply, ih]
      push_cast
      ring

theorem iterate_mul (x d : ℚ) (k : Nat) : (fun y : ℚ => y * d)^[k] x = x * d ^ k := by
  induction k generalizing x with
  | zero => simp
  | succ k ih =>
      rw [Function.iterate_succ_apply, ih]
      ring

theorem pressureValue_eq (P1 dP : ℚ) (k : Nat) : pressureValue P1 dP k = P1 * dP ^ k :=
  iterate_mul P1 dP k

theorem eps_pos : (0 : ℚ) < eps := by
  norm_num [eps]

/-! ## Double arithmetic: values of the rounding -/

/-- The rounding on known values: `1.0e-6`, `1.2` and `0.1` round to the
`double`s C gives them, a `double` is left unchanged, the largest finite
`double` `2^1024 - 2^971` is kept, and the midpoint above it overflows. -/
theorem roundDouble_values :
    roundDouble (1 / 1000000) = some ieeeArith.eps ∧
    roundDouble (12 / 10) = some double1_2 ∧
    roundDouble (1 / 10) = some (3602879701896397 / 36028797018963968) ∧
    roundDouble 101325 = some 101325 ∧
    roundDouble (-(1 / 4)) = some (-(1 / 4)) ∧
    roundDouble (twoPow (-1074) / 2) = some 0 ∧
    roundDouble (2 ^ 1024 - 2 ^ 971) = some (2 ^ 1024 - 2 ^ 971) ∧
    roundDouble (2 ^ 1024 - 2 ^ 970) = none := by
  refine ⟨by decide!, by decide!, by decide!, by decide!, by decide!, by decide!, by decide!,
    by decide!⟩

/-! ## Loops in an arithmetic: general facts -/

/-- In an arithmetic that never stops the process, `forLoopIn` is `forLoop`. -/
theorem forLoopIn_exact {σ : Type} (cond : ℚ → Bool) (next : ℚ → ℚ) (body : ℚ → σ → Run σ) :
    ∀ (fuel : Nat) (x : ℚ) (s : σ),
      forLoopIn (fun x => some (cond x)) (fun x => some (next x))
        (fun x s => (body x s).toExec) fuel x s = (forLoop cond next body fuel x s).toExec
  | 0, x, s => rfl
  | fuel + 1, x, s => by
      by_cases hc : cond x = true
      · cases hb : body x s with
        | done s' =>
            have ih := forLoopIn_exact cond next body fuel (next x) s'
            simp only [forLoopIn, forLoop, hc, hb, Run.toExec, if_true]
            exact ih
        | more s' => simp [forLoopIn, forLoop, hc, hb, Run.toExec]
      · have hc' : cond x = false := by simpa using hc
        simp [forLoopIn, forLoop, hc', Run.toExec]

theorem axisTest_exact (x2 x : ℚ) : axisTest exactArith x2 x = some (decide (x < x2 + eps)) := rfl

/-- In exact arithmetic the additive loop of an arithmetic is `additiveAxis`. -/
theorem additiveAxisIn_exact (x1 x2 dx : ℚ) (fuel : Nat) :
    additiveAxisIn exactArith x1 x2 dx fuel = (additiveAxis x1 x2 dx fuel).toExec :=
  forLoopIn_exact (fun x => decide (x < x2 + eps)) (fun x => x + dx) record fuel x1 []

/-- In exact arithmetic the pressure loop of an arithmetic is `pressureAxis`. -/
theorem pressureAxisIn_exact (P1 P2 dP : ℚ) (fuel : Nat) :
    pressureAxisIn exactArith P1 P2 dP fuel = (pressureAxis P1 P2 dP fuel).toExec :=
  forLoopIn_exact (fun P => decide (P < P2 + eps)) (fun P => P * dP) record fuel P1 []

theorem forLoopIn_exit {σ : Type} (cond : ℚ → Option Bool) (next : ℚ → Option ℚ)
    (body : ℚ → σ → Exec σ) (fuel : Nat) (x : ℚ) (s : σ) (h : cond x = some false) :
    forLoopIn cond next body (fuel + 1) x s = .done s := by
  simp [forLoopIn, h]

theorem forLoopIn_trap {σ : Type} (cond : ℚ → Option Bool) (next : ℚ → Option ℚ)
    (body : ℚ → σ → Exec σ) (fuel : Nat) (x : ℚ) (s : σ) (h : cond x = none) :
    forLoopIn cond next body (fuel + 1) x s = .trapped s := by
  simp [forLoopIn, h]

/-- A recording loop only appends to what was visited before. -/
theorem forLoopIn_record_state (cond : ℚ → Option Bool) (next : ℚ → Option ℚ) :
    ∀ (n : Nat) (x : ℚ) (s : List ℚ),
      ∃ vs, (forLoopIn cond next recordIn n x s).state = s ++ vs
  | 0, x, s => ⟨[], by simp [forLoopIn, Exec.state]⟩
  | n + 1, x, s => by
      rcases hc : cond x with _ | _ | _
      · exact ⟨[], by simp [forLoopIn, hc, Exec.state]⟩
      · exact ⟨[], by simp [forLoopIn, hc, Exec.state]⟩
      · rcases hn : next x with _ | x'
        · exact ⟨[x], by simp [forLoopIn, hc, hn, recordIn, Exec.state]⟩
        · obtain ⟨vs, hvs⟩ := forLoopIn_record_state cond next n x' (s ++ [x])
          exact ⟨x :: vs, by simp [forLoopIn, hc, hn, recordIn, hvs]⟩

/-- When the condition holds at the initial value, the body runs and the first
value visited is the initial value. -/
theorem forLoopIn_record_head (cond : ℚ → Option Bool) (next : ℚ → Option ℚ) (fuel : Nat)
    (x : ℚ) (h : cond x = some true) :
    (forLoopIn cond next recordIn (fuel + 1) x []).state.head? = some x := by
  rcases hn : next x with _ | x'
  · simp [forLoopIn, h, hn, recordIn, Exec.state]
  · obtain ⟨vs, hvs⟩ := forLoopIn_record_state cond next fuel x' ([] ++ [x])
    simp [forLoopIn, h, hn, recordIn] at hvs ⊢
    simp [hvs]

/-- A recording loop whose update returns the value it was given, at a value
where the condition holds, is never left: after `fuel` evaluations it has
visited that value `fuel` times. -/
theorem forLoopIn_record_stuck (cond : ℚ → Option Bool) (next : ℚ → Option ℚ) (x : ℚ)
    (hc : cond x = some true) (hn : next x = some x) :
    ∀ (fuel : Nat) (s : List ℚ),
      forLoopIn cond next recordIn fuel x s = .more (s ++ List.replicate fuel x)
  | 0, s => by simp [forLoopIn]
  | fuel + 1, s => by
      simp [forLoopIn, hc, hn, recordIn, forLoopIn_record_stuck cond next x hc hn fuel,
        List.replicate_succ]

/-! ## Additive axes (temperature, blowing rate) -/

theorem additiveAxis_done (x1 x2 dx : ℚ) (n fuel : Nat) (hf : n < fuel)
    (hlt : ∀ k, k < n → x1 + k * dx < x2 + eps) (hge : x2 + eps ≤ x1 + n * dx) :
    additiveAxis x1 x2 dx fuel = .done ((List.range n).map (fun k : Nat => x1 + k * dx)) := by
  unfold additiveAxis
  rw [forLoop_record_done _ _ n x1 [] fuel hf]
  · simp [iterate_add]
  · intro k hk
    simpa [iterate_add] using hlt k hk
  · simpa [iterate_add] using hge

/-- The run of the additive loop from `0` to `0` with step `1.0e-6`, for every
bound on the number of evaluations. -/
theorem additiveAxis_boundary_run :
    ∀ fuel : Nat, additiveAxis 0 0 eps fuel = .more [] ∨ additiveAxis 0 0 eps fuel = .more [0] ∨
      additiveAxis 0 0 eps fuel = .done [0]
  | 0 => Or.inl (by simp [additiveAxis, forLoop])
  | 1 => Or.inr (Or.inl (by norm_num [additiveAxis, forLoop, record, eps]))
  | fuel + 2 => Or.inr (Or.inr (by
      have h := additiveAxis_done 0 0 eps 1 (fuel + 2) (by omega)
        (by intro k hk; interval_cases k; norm_num [eps]) (by norm_num)
      simpa [List.range_succ] using h))

/-- C8, counterexample: on the axis start `0`, end `0`, step `1.0e-6` (step
positive, end not below start) the first value of the progression above
`end + 1.0e-6` is the one of index 2, so the claim has the loop visit the two
values `0` and `1.0e-6`; no run of the loop visits that many values, and the
loop is left after visiting `0` alone. -/
theorem additiveAxis_boundary_counterexample :
    (0 : ℚ) < eps ∧ (0 : ℚ) ≤ 0 ∧ additiveAxis 0 0 eps 2 = .done [0] ∧
    ¬ ∃ n : Nat, (0 + eps < 0 + (n : ℚ) * eps) ∧ (∀ k : Nat, k < n → ¬ (0 + eps < 0 + (k : ℚ) * eps)) ∧
        ∃ fuel, additiveAxis 0 0 eps fuel = .done ((List.range n).map (fun k : Nat => 0 + (k : ℚ) * eps)) := by
  refine ⟨eps_pos, le_refl _, ?_, ?_⟩
  · have h := additiveAxis_done 0 0 eps 1 2 (by omega)
      (by intro k hk; interval_cases k; norm_num [eps]) (by norm_num)
    simpa [List.range_succ] using h
  · rintro ⟨n, hn, hfirst, fuel, hrun⟩
    have he := eps_pos
    have h2 : 2 ≤ n := by
      by_contra hlt
      have hn1 : (n : ℚ) ≤ 1 := by exact_mod_cast (by omega : n ≤ 1)
      nlinarith
    have hlen := congrArg (fun r => r.state.length) hrun
    simp only [Run.state, List.length_map, List.length_range] at hlen
    rcases additiveAxis_boundary_run fuel with h | h | h <;> rw [h] at hlen <;>
      simp [Run.state] at hlen <;> omega

/-- C8 (amended): for an additive axis with positive step and end not below
start, taken in exact arithmetic, the loop is left, and it visits exactly
`start, start + step, …` up to and including the predecessor of the first value
of that progression that is at least `end + 1.0e-6` (index `n`); at least one
value is visited and the last visited value is below `end + 1.0e-6`. -/
theorem additiveAxis_visits (x1 x2 dx : ℚ) (hstep : 0 < dx) (hle : x1 ≤ x2) :
    ∃ n : Nat, 0 < n ∧ x2 + eps ≤ x1 + n * dx ∧ (∀ k : Nat, k < n → x1 + k * dx < x2 + eps) ∧
      (∀ fuel, n < fuel →
        additiveAxis x1 x2 dx fuel = .done ((List.range n).map (fun k : Nat => x1 + k * dx))) ∧
      ((List.range n).map (fun k : Nat => x1 + k * dx)).getLast? = some (x1 + (n - 1 : Nat) * dx) ∧
      x1 + (n - 1 : Nat) * dx < x2 + eps := by
  have hex : ∃ n : Nat, x2 + eps ≤ x1 + n * dx := by
    obtain ⟨m, hm⟩ := exists_nat_gt ((x2 + eps - x1) / dx)
    refine ⟨m, ?_⟩
    have := (div_lt_iff₀ hstep).mp hm
    linarith
  classical
  let n := Nat.find hex
  have hn : x2 + eps ≤ x1 + n * dx := Nat.find_spec hex
  have hmin : ∀ k : Nat, k < n → x1 + k * dx < x2 + eps := fun k hk =>
    not_le.mp (Nat.find_min hex hk)
  have hpos : 0 < n := by
    rcases Nat.eq_zero_or_pos n with h0 | h0
    · rw [h0] at hn
      have := eps_pos
      simp at hn
      linarith
    · exact h0
  refine ⟨n, hpos, hn, hmin, ?_, ?_, hmin (n - 1) (by omega)⟩
  · intro fuel hf
    exact additiveAxis_done x1 x2 dx n fuel hf hmin hn
  · obtain ⟨m, hm⟩ := Nat.exists_eq_succ_of_ne_zero (Nat.pos_iff_ne_zero.mp hpos)
    rw [hm, List.range_succ]
    simp

/-- Witness of C8 (amended) on the temperature axis `300:100:500`. -/
theorem additiveAxis_visits_witness :
    (0 : ℚ) < 100 ∧ (300 : ℚ) ≤ 500 ∧
    ∃ n : Nat, 0 < n ∧ 500 + eps ≤ 300 + n * 100 ∧
      (∀ k : Nat, k < n → (300 : ℚ) + k * 100 < 500 + eps) ∧
      (∀ fuel, n < fuel →
        additiveAxis 300 500 100 fuel =
          .done ((List.range n).map (fun k : Nat => (300 : ℚ) + k * 100))) ∧
      ((List.range n).map (fun k : Nat => (300 : ℚ) + k * 100)).getLast? =
        some ((300 : ℚ) + ((n - 1 : Nat) : ℚ) * 100) ∧
      (300 : ℚ) + ((n - 1 : Nat) : ℚ) * 100 < 500 + eps :=
  ⟨by norm_num, by norm_num, additiveAxis_visits 300 500 100 (by norm_num) (by norm_num)⟩

/-! ## Multiplicative axis (pressure) -/

theorem pressureAxis_done (P1 P2 dP : ℚ) (n fuel : Nat) (hf : n < fuel)
    (hlt : ∀ k, k < n → P1 * dP ^ k < P2 + eps) (hge : P2 + eps ≤ P1 * dP ^ n) :
    pressureAxis P1 P2 dP fuel = .done ((List.range n).map (fun k : Nat => P1 * dP ^ k)) := by
  unfold pressureAxis
  rw [forLoop_record_done _ _ n P1 [] fuel hf]
  · simp [iterate_mul]
  · intro k hk
    simpa [iterate_mul] using hlt k hk
  · simpa [iterate_mul] using hge

theorem pressureAxis_more (P1 P2 dP : ℚ) (fuel : Nat)
    (hlt : ∀ k, k < fuel → pressureValue P1 dP k < P2 + eps) :
    pressureAxis P1 P2 dP fuel = .more ((List.range fuel).map (pressureValue P1 dP)) := by
  unfold pressureAxis
  rw [forLoop_record_more _ _ fuel P1 []]
  · simp [pressureValue]
  · intro k hk
    simpa [pressureValue] using hlt k hk

/-- C9, counterexample: in `double` arithmetic the pressure loop from the least
positive `double` `2 ^ -1074` to end `1` with step `1.2` (step above 1,
`0 < start ≤ end`) is never left and its values do not increase: the product
`2 ^ -1074 * 1.2` rounds back to `2 ^ -1074`, so after any number of
evaluations the loop is still running, having visited that one value each
time. And from start `1` to end `2 ^ 1000` with step `2 ^ 600` the second
update `2 ^ 600 * 2 ^ 600` overflows, which stops the process after two values
instead of leaving the loop. -/
theorem pressureAxis_rounding_counterexample :
    ((1 : ℚ) < double1_2 ∧ 0 < minSubnormal ∧ minSubnormal ≤ 1 ∧
      ieeeArith.mul minSubnormal double1_2 = some minSubnormal ∧
      ∀ fuel : Nat,
        pressureAxisIn ieeeArith minSubnormal 1 double1_2 fuel =
          .more (List.replicate fuel minSubnormal)) ∧
    ((1 : ℚ) < 2 ^ 600 ∧ (0 : ℚ) < 1 ∧ (1 : ℚ) ≤ 2 ^ 1000 ∧
      ieeeArith.mul (2 ^ 600) (2 ^ 600) = none ∧
      pressureAxisIn ieeeArith 1 (2 ^ 1000) (2 ^ 600) 3 = .trapped [1, 2 ^ 600]) := by
  refine ⟨⟨by decide!, by decide!, by decide!, by decide!, ?_⟩,
    by decide!, by decide!, by decide!, by decide!, by decide!⟩
  intro fuel
  have h := forLoopIn_record_stuck (axisTest ieeeArith 1) (fun P => ieeeArith.mul P double1_2)
    minSubnormal (by decide!) (by decide!) fuel []
  simpa [pressureAxisIn] using h

/-- C9 (amended): for a pressure axis with step above 1 and `0 < start ≤ end`, taken in
exact arithmetic, the pressure loop is left after visiting
`start, start·step, start·step², …` (`n ≥ 1` values), the visited sequence is
strictly increasing, and every visited value, the last one in particular, is
below `end + 1.0e-6`. -/
theorem pressureAxis_terminates (P1 P2 dP : ℚ) (hstep : 1 < dP) (hpos : 0 < P1) (hle : P1 ≤ P2) :
    ∃ n : Nat, 0 < n ∧
      (∀ fuel, n < fuel →
        pressureAxis P1 P2 dP fuel = .done ((List.range n).map (fun k : Nat => P1 * dP ^ k))) ∧
      ((List.range n).map (fun k : Nat => P1 * dP ^ k)).Pairwise (fun a b => a < b) ∧
      (∀ v ∈ (List.range n).map (fun k : Nat => P1 * dP ^ k), v < P2 + eps) ∧
      ((List.range n).map (fun k : Nat => P1 * dP ^ k)).getLast? = some (P1 * dP ^ (n - 1)) ∧
      P1 * dP ^ (n - 1) < P2 + eps := by
  have hex : ∃ n : Nat, P2 + eps ≤ P1 * dP ^ n := by
    obtain ⟨m, hm⟩ := pow_unbounded_of_one_lt ((P2 + eps) / P1) hstep
    refine ⟨m, ?_⟩
    have := (div_lt_iff₀ hpos).mp hm
    linarith
  classical
  let n := Nat.find hex
  have hn : P2 + eps ≤ P1 * dP ^ n := Nat.find_spec hex
  have hmin : ∀ k : Nat, k < n → P1 * dP ^ k < P2 + eps := fun k hk =>
    not_le.mp (Nat.find_min hex hk)
  have hnpos : 0 < n := by
    rcases Nat.eq_zero_or_pos n with h0 | h0
    · rw [h0] at hn
      have := eps_pos
      simp at hn
      linarith
    · exact h0
  refine ⟨n, hnpos, ?_, ?_, ?_, ?_, hmin (n - 1) (by omega)⟩
  · intro fuel hf
    exact pressureAxis_done P1 P2 dP n fuel hf hmin hn
  · rw [List.pairwise_map]
    refine List.Pairwise.imp ?_ (List.pairwise_lt_range n)
    intro a b hab
    exact mul_lt_mul_of_pos_left (pow_lt_pow_right₀ hstep hab) hpos
  · intro v hv
    obtain ⟨k, hk, rfl⟩ := List.mem_map.mp hv
    exact hmin k (List.mem_range.mp hk)
  · obtain ⟨m, hm⟩ := Nat.exists_eq_succ_of_ne_zero (Nat.pos_iff_ne_zero.mp hnpos)
    rw [hm, List.range_succ]
    simp

/-- Witness of C9 (amended) on the pressure axis start 1, end 8, step 2. -/
theorem pressureAxis_terminates_witness :
    (1 : ℚ) < 2 ∧ (0 : ℚ) < 1 ∧ (1 : ℚ) ≤ 8 ∧
    ∃ n : Nat, 0 < n ∧
      (∀ fuel, n < fuel →
        pressureAxis 1 8 2 fuel = .done ((List.range n).map (fun k : Nat => (1 : ℚ) * 2 ^ k))) ∧
      ((List.range n).map (fun k : Nat => (1 : ℚ) * 2 ^ k)).Pairwise (fun a b => a < b) ∧
      (∀ v ∈ (List.range n).map (fun k : Nat => (1 : ℚ) * 2 ^ k), v < 8 + eps) ∧
      ((List.range n).map (fun k : Nat => (1 : ℚ) * 2 ^ k)).getLast? = some ((1 : ℚ) * 2 ^ (n - 1)) ∧
      (1 : ℚ) * 2 ^ (n - 1) < 8 + eps :=
  ⟨by norm_num, by norm_num, by norm_num,
    pressureAxis_terminates 1 8 2 (by norm_num) (by norm_num) (by norm_num)⟩

/-- C10, counterexample: with start `-1`, end `-2/5` and step `1/2` (step at
most 1, end above start) the third pressure generated by `P *= dP` is `-1/4`,
which is not below the end; the loop is left after visiting `-1` and `-1/2`. -/
theorem pressureAxis_reaches_end_counterexample :
    (1 / 2 : ℚ) ≤ 1 ∧ (-1 : ℚ) < -2 / 5 ∧ pressureValue (-1) (1 / 2) 2 = -1 / 4 ∧
    (-2 / 5 : ℚ) ≤ pressureValue (-1) (1 / 2) 2 ∧
    pressureAxis (-1) (-2 / 5) (1 / 2) 3 = .done [-1, -1 / 2] := by
  refine ⟨by norm_num, by norm_num, ?_, ?_, ?_⟩
  · rw [pressureValue_eq]; norm_num
  · rw [pressureValue_eq]; norm_num
  · norm_num [pressureAxis, forLoop, record, eps]

/-- A step below `-1` also takes the pressure to the end and beyond from a
positive start: with start `1`, end `3/2`, step `-2` the third pressure is `4`. -/
theorem pressureAxis_negative_step_reaches_end :
    (-2 : ℚ) ≤ 1 ∧ (1 : ℚ) < 3 / 2 ∧ pressureValue 1 (-2) 2 = 4 ∧
    pressureAxis 1 (3 / 2) (-2) 4 = .done [1, -2] := by
  refine ⟨by norm_num, by norm_num, ?_, ?_⟩
  · rw [pressureValue_eq]; norm_num
  · norm_num [pressureAxis, forLoop, record, eps]

/-- C10 (amended): for a pressure axis with `-1 ≤ step ≤ 1` and
`end > start ≥ 0`, no pressure generated by `P *= dP` reaches the end: every
value `start·step^k` is below `end`; so every generated value is visited and
the loop is never left. -/
theorem pressureAxis_never_reaches_end (P1 P2 dP : ℚ) (hstart : 0 ≤ P1) (hlo : -1 ≤ dP)
    (hhi : dP ≤ 1) (hend : P1 < P2) :
    (∀ k : Nat, pressureValue P1 dP k < P2) ∧
    ∀ fuel : Nat,
      pressureAxis P1 P2 dP fuel = .more ((List.range fuel).map (pressureValue P1 dP)) := by
  have hseq : ∀ k : Nat, pressureValue P1 dP k < P2 := by
    intro k
    rw [pressureValue_eq]
    have habs : |dP| ≤ 1 := abs_le.mpr ⟨hlo, hhi⟩
    have hpow : dP ^ k ≤ 1 :=
      le_trans (le_abs_self _) (by rw [abs_pow]; exact pow_le_one₀ (abs_nonneg _) habs)
    calc P1 * dP ^ k ≤ P1 * 1 := mul_le_mul_of_nonneg_left hpow hstart
      _ = P1 := mul_one _
      _ < P2 := hend
  refine ⟨hseq, fun fuel => pressureAxis_more P1 P2 dP fuel ?_⟩
  intro k _
  have := eps_pos
  linarith [hseq k]

/-- Witness of C10 (amended) on start 1, end 2, step 1/2. -/
theorem pressureAxis_never_reaches_end_witness :
    (0 : ℚ) ≤ 1 ∧ (-1 : ℚ) ≤ 1 / 2 ∧ (1 / 2 : ℚ) ≤ 1 ∧ (1 : ℚ) < 2 ∧
    (∀ k : Nat, pressureValue 1 (1 / 2) k < 2) ∧
    ∀ fuel : Nat,
      pressureAxis 1 2 (1 / 2) fuel = .more ((List.range fuel).map (pressureValue 1 (1 / 2))) :=
  ⟨by norm_num, by norm_num, by norm_num, by norm_num,
    pressureAxis_never_reaches_end 1 2 (1 / 2) (by norm_num) (by norm_num) (by norm_num)
      (by norm_num)⟩

/-! ## Parsed ranges on the axes -/

/-- C4, counterexample: `parseRange` succeeds on `"500:100:300"` with start 500,
end 300, step 100, and on that range both axis loops are left at the first
evaluation of the condition with no value visited, in exact arithmetic and in
`double` arithmetic; and it succeeds on the scalar `"20000000000"` with start
and end `2e10`, step 1, where in `double` arithmetic `2e10 + 1.0e-6` is `2e10`,
so that both loops are again left at once with no value visited. -/
theorem parsed_range_empty_counterexample :
    (parseRange mppString "500:100:300" = some { x1 := 500, x2 := 300, dx := 100 } ∧
      additiveAxis 500 300 100 1 = .done [] ∧ pressureAxis 500 300 100 1 = .done [] ∧
      additiveAxisIn ieeeArith 500 300 100 1 = .done [] ∧
      pressureAxisIn ieeeArith 500 300 100 1 = .done []) ∧
    (parseRange mppString "20000000000" =
        some { x1 := 20000000000, x2 := 20000000000, dx := 1 } ∧
      ieeeArith.add 20000000000 ieeeArith.eps = some 20000000000 ∧
      additiveAxisIn ieeeArith 20000000000 20000000000 1 1 = .done [] ∧
      pressureAxisIn ieeeArith 20000000000 20000000000 1 1 = .done []) := by
  refine ⟨⟨by decide, ?_, ?_, by decide!, by decide!⟩, by decide, by decide!, by decide!, by decide!⟩
  · norm_num [additiveAxis, forLoop, eps]
  · norm_num [pressureAxis, forLoop, eps]

/-- The inputs for which the first test `start < end + 1.0e-6` holds in exact
arithmetic: one token, or three tokens with a zero step token or with
`atof t0 < atof t2 + 1.0e-6`. -/
theorem parseRange_exact_test (L : StringLib) (range : String) (r : Range)
    (hparse : parseRange L range = some r) :
    r.x1 < r.x2 + eps ↔
      ((L.tokenize range).length = 1 ∨
        ∃ t0 t1 t2, L.tokenize range = [t0, t1, t2] ∧
          (L.atof t1 = 0 ∨ L.atof t0 < L.atof t2 + eps)) := by
  have he := eps_pos
  rcases parseRange_eq_some L range r hparse with ⟨v, htok, -, rfl⟩ | ⟨t0, t1, t2, htok, -, rfl⟩
  · rw [zeroStepCollapse_of_ne (by simp)]
    simp [htok, he]
  · by_cases hz : L.atof t1 = 0
    · rw [zeroStepCollapse_of_eq hz]
      simp only [lt_add_iff_pos_right, he, true_iff]
      exact Or.inr ⟨t0, t1, t2, htok, Or.inl hz⟩
    · rw [zeroStepCollapse_of_ne hz]
      constructor
      · intro h
        exact Or.inr ⟨t0, t1, t2, htok, Or.inr h⟩
      · rintro (hlen | ⟨u0, u1, u2, htok', hor⟩)
        · rw [htok] at hlen
          simp at hlen
        · rw [htok] at htok'
          simp only [List.cons.injEq, and_true] at htok'
          obtain ⟨rfl, rfl, rfl⟩ := htok'
          rcases hor with h | h
          · exact absurd h hz
          · exact h

/-- C4 (amended): a range `(start, end, step)` returned by the three-argument
`parseRange` yields at least one grid value, namely the start, on the additive
and on the multiplicative axis loop exactly when the loop's first test
`start < end + 1.0e-6` holds in the arithmetic the loop uses: when it holds the
body runs and the first value visited is the start, when it fails the loop is
left at once with no value visited (and when the sum stops the process nothing
is visited either). Taken in exact arithmetic, the test holds exactly for a
single-token input, for a three-token input whose step token is `0`, and for a
three-token input `t0:t1:t2` with `atof t0 < atof t2 + 1.0e-6`. -/
theorem parsed_range_first_value (A : Arith) (L : StringLib) (range : String) (r : Range)
    (hparse : parseRange L range = some r) :
    (axisTest A r.x2 r.x1 = some true →
      ∀ fuel : Nat,
        (additiveAxisIn A r.x1 r.x2 r.dx (fuel + 1)).state.head? = some r.x1 ∧
        (pressureAxisIn A r.x1 r.x2 r.dx (fuel + 1)).state.head? = some r.x1) ∧
    (axisTest A r.x2 r.x1 = some false →
      ∀ fuel : Nat,
        additiveAxisIn A r.x1 r.x2 r.dx (fuel + 1) = .done [] ∧
        pressureAxisIn A r.x1 r.x2 r.dx (fuel + 1) = .done []) ∧
    (axisTest A r.x2 r.x1 = none →
      ∀ fuel : Nat,
        additiveAxisIn A r.x1 r.x2 r.dx (fuel + 1) = .trapped [] ∧
        pressureAxisIn A r.x1 r.x2 r.dx (fuel + 1) = .trapped []) ∧
    (((L.tokenize range).length = 1 ∨
        ∃ t0 t1 t2, L.tokenize range = [t0, t1, t2] ∧
          (L.atof t1 = 0 ∨ L.atof t0 < L.atof t2 + eps)) →
      ∀ fuel : Nat,
        (additiveAxis r.x1 r.x2 r.dx (fuel + 1)).state.head? = some r.x1 ∧
        (pressureAxis r.x1 r.x2 r.dx (fuel + 1)).state.head? = some r.x1) ∧
    (¬ ((L.tokenize range).length = 1 ∨
        ∃ t0 t1 t2, L.tokenize range = [t0, t1, t2] ∧
          (L.atof t1 = 0 ∨ L.atof t0 < L.atof t2 + eps)) →
      ∀ fuel : Nat,
        additiveAxis r.x1 r.x2 r.dx (fuel + 1) = .done [] ∧
        pressureAxis r.x1 r.x2 r.dx (fuel + 1) = .done []) := by
  refine ⟨?_, ?_, ?_, ?_, ?_⟩
  · intro h fuel
    exact ⟨forLoopIn_record_head _ _ fuel r.x1 h, forLoopIn_record_head _ _ fuel r.x1 h⟩
  · intro h fuel
    exact ⟨forLoopIn_exit _ _ _ fuel r.x1 [] h, forLoopIn_exit _ _ _ fuel r.x1 [] h⟩
  · intro h fuel
    exact ⟨forLoopIn_trap _ _ _ fuel r.x1 [] h, forLoopIn_trap _ _ _ fuel r.x1 [] h⟩
  · intro h fuel
    have hcond : r.x1 < r.x2 + eps := (parseRange_exact_test L range r hparse).mpr h
    exact ⟨forLoop_record_head _ _ fuel r.x1 (by simpa using hcond),
      forLoop_record_head _ _ fuel r.x1 (by simpa using hcond)⟩
  · intro h fuel
    have hcond : ¬ r.x1 < r.x2 + eps := fun hlt => h ((parseRange_exact_test L range r hparse).mp hlt)
    exact ⟨forLoop_exit _ _ _ fuel r.x1 [] (by simpa using hcond),
      forLoop_exit _ _ _ fuel r.x1 [] (by simpa using hcond)⟩

/-- Witness of C4 (amended) on the scalar input `"300"` in `double` arithmetic:
`300 < 300 + 1.0e-6` holds there and both loops visit `300` first. -/
theorem parsed_range_first_value_witness :
    parseRange mppString "300" = some { x1 := 300, x2 := 300, dx := 1 } ∧
    axisTest ieeeArith 300 300 = some true ∧
    ∀ fuel : Nat,
      (additiveAxisIn ieeeArith 300 300 1 (fuel + 1)).state.head? = some 300 ∧
      (pressureAxisIn ieeeArith 300 300 1 (fuel + 1)).state.head? = some 300 :=
  ⟨by decide, by decide!,
    (parsed_range_first_value ieeeArith mppString "300" { x1 := 300, x2 := 300, dx := 1 }
      (by decide)).1 (by decide!)⟩

/-! ## The sweep -/

theorem Run.map_map {σ : Type} (f g : σ → σ) (r : Run σ) :
    (r.map g).map f = r.map (fun s => f (g s)) := by
  cases r <;> rfl

theorem parseOptions_scenario : parseOptions mppString scenarioArgv = some scenarioOptions := by
  decide

theorem sweep_scenario_never_finishes (smb : Evaluator) (Yke Ykg : List ℚ)
    (fuelP fuelBg fuelT : Nat) :
    (sweep smb Yke Ykg scenarioOptions fuelP fuelBg fuelT).finished = false := by
  unfold sweep
  exact forLoop_stuck _ _ _ 101325 (by norm_num [scenarioOptions, eps])
    (by norm_num [scenarioOptions]) fuelP []

/-- C3, the code on the scenario: the three options parse to the temperature
axis `300:100:500` and the one-point ranges `(101325, 101325, 1)` and
`(0, 0, 1)`; the temperature and blowing-rate loops are left after 3 and 1
values, but the pressure loop, whose update is `P *= 1`, is never left: for
every bound on the three loops the sweep is still running, and after two turns
of the pressure loop it has already written six rows, the three grid points
twice. -/
theorem main_scenario_never_finishes :
    parseOptions mppString scenarioArgv = some scenarioOptions ∧
    additiveAxis 300 500 100 4 = .done [300, 400, 500] ∧
    additiveAxis 0 0 1 2 = .done [0] ∧
    (∀ (smb : Evaluator) (Yke Ykg : List ℚ) (fuelP fuelBg fuelT : Nat),
      ∃ r, main mppString smb Yke Ykg scenarioArgv fuelP fuelBg fuelT = some r ∧
        r.finished = false) ∧
    (∀ (smb : Evaluator) (Yke Ykg : List ℚ),
      ∃ r, main mppString smb Yke Ykg scenarioArgv 2 2 4 = some r ∧
        r.state.map Step.point =
          [(101325, 0, 300), (101325, 0, 400), (101325, 0, 500),
           (101325, 0, 300), (101325, 0, 400), (101325, 0, 500)]) := by
  refine ⟨parseOptions_scenario, ?_, ?_, ?_, ?_⟩
  · norm_num [additiveAxis, forLoop, record, eps]
  · norm_num [additiveAxis, forLoop, record, eps]
  · intro smb Yke Ykg fuelP fuelBg fuelT
    refine ⟨sweep smb Yke Ykg scenarioOptions fuelP fuelBg fuelT, ?_,
      sweep_scenario_never_finishes smb Yke Ykg fuelP fuelBg fuelT⟩
    simp [main, parseOptions_scenario]
  · intro smb Yke Ykg
    refine ⟨sweep smb Yke Ykg scenarioOptions 2 2 4, ?_, ?_⟩
    · simp [main, parseOptions_scenario]
    · norm_num [sweep, forLoop, sweepBody, eps, Run.state, Step.point, scenarioOptions]

end Bprime
